import Mathlib

/-!
# Verification of the riskdotfun hash-verifier core (src/crypto.js, src/script.js)

Shallow embedding of the verifier's data model and operations:

* the hex codec (`hexToBytes`, `bytesToHex`),
* the commitment check (`verifySeed`),
* the outcome reconstruction (`generateDeterministicRandom`, `generateDeathTiles`),
* round-configuration parsing (`parseRowConfig`),
* input validation (`validateGameData`) and result assembly
  (`createVerificationResult`, `verifyGame`).

JavaScript numbers that flow through `parseInt`/`Math.floor` are modelled
exactly: integers as `Int`, the normalized random value as `ℚ`, and `NaN` as
`Option.none` (JS `NaN` propagates through arithmetic, and `Uint8Array`
assignment coerces it to `0`).  Character tests are written on `Char.toNat`
code points, matching the code-unit semantics of the JS string builtins.

The two cryptographic primitives, `CryptoJS.HmacSHA256` and `keccak256`, are
external libraries probed at runtime by the source; they are modelled as
injected hashing capabilities (function parameters), with well-formedness of
their hex digests (`IsHexDigest`) as an explicit hypothesis where a claim
needs it.
-/

namespace HashVerifier

/-! ## JavaScript string primitives -/

/-- JS whitespace class `\s` restricted to its ASCII members
(tab 9, LF 10, VT 11, FF 12, CR 13, space 32). -/
def jsIsWhitespace (c : Char) : Bool :=
  decide (c.toNat = 9 ∨ c.toNat = 10 ∨ c.toNat = 11 ∨ c.toNat = 12 ∨
    c.toNat = 13 ∨ c.toNat = 32)

/-- `String.prototype.toLowerCase` on one character (ASCII range: `A`-`Z`
are code points 65-90; lowering adds 32). -/
def jsToLowerChar (c : Char) : Char :=
  if 65 ≤ c.toNat ∧ c.toNat ≤ 90 then Char.ofNat (c.toNat + 32) else c

/-- `String.prototype.toLowerCase` (ASCII model; the strings the verifier
lowers are hex digests). -/
def jsToLower (s : String) : String :=
  String.mk (s.data.map jsToLowerChar)

/-- `String.prototype.trim`: drop leading and trailing whitespace. -/
def jsTrim (s : String) : String :=
  String.mk (((s.data.dropWhile jsIsWhitespace).reverse.dropWhile
    jsIsWhitespace).reverse)

/-- `hex.replace(/\s/g, '')`: delete every whitespace character. -/
def jsStripWhitespace (s : String) : String :=
  String.mk (s.data.filter (fun c => !jsIsWhitespace c))

/-! ## JavaScript `parseInt` -/

/-- Digit value of a character as `parseInt` reads it: `0`-`9` are code
points 48-57, `a`-`z` are 97-122 (values 10-35), `A`-`Z` are 65-90. -/
def digitVal (c : Char) : Option Nat :=
  if 48 ≤ c.toNat ∧ c.toNat ≤ 57 then some (c.toNat - 48)
  else if 97 ≤ c.toNat ∧ c.toNat ≤ 122 then some (c.toNat - 87)
  else if 65 ≤ c.toNat ∧ c.toNat ≤ 90 then some (c.toNat - 55)
  else none

/-- Digit value accepted under a given radix. -/
def radixDigitVal (radix : Nat) (c : Char) : Option Nat :=
  (digitVal c).bind (fun v => if v < radix then some v else none)

/-- Accumulate the value of a digit string (most significant first). -/
def parseDigits (radix : Nat) (ds : List Char) : Nat :=
  ds.foldl (fun a c => a * radix + (radixDigitVal radix c).getD 0) 0

/-- `parseInt` after sign and `0x` handling: longest digit run; `NaN`
(`none`) when it is empty. -/
def jsParseIntCore (radix : Nat) (s : List Char) : Option Int :=
  let ds := s.takeWhile (fun c => (radixDigitVal radix c).isSome)
  if ds.isEmpty then none else some (parseDigits radix ds : Nat)

/-- Code point of the first character (a space, 32, when empty). -/
def headCode (s : List Char) : Nat := (s.headD ' ').toNat

/-- Does the string begin with the `0x`/`0X` radix mark?  (`0` is code
point 48, `x` 120, `X` 88.) -/
def hasHexMark (s : List Char) : Bool :=
  decide (2 ≤ s.length ∧ headCode s = 48 ∧
    (headCode (s.drop 1) = 120 ∨ headCode (s.drop 1) = 88))

/-- `parseInt` radix-16 `0x`/`0X` stripping. -/
def jsParseIntStrip (radix : Nat) (s : List Char) : Option Int :=
  if radix = 16 ∧ hasHexMark s = true then jsParseIntCore radix (s.drop 2)
  else jsParseIntCore radix s

/-- `parseInt(string, radix)`: skip leading whitespace, read an optional
sign (`-` is code point 45, `+` is 43), then parse the longest digit run.
`none` models the `NaN` result. -/
def jsParseInt (radix : Nat) (cs : List Char) : Option Int :=
  let s1 := cs.dropWhile jsIsWhitespace
  if s1.isEmpty then none
  else if headCode s1 = 45 then (jsParseIntStrip radix (s1.drop 1)).map (fun v => -v)
  else if headCode s1 = 43 then jsParseIntStrip radix (s1.drop 1)
  else jsParseIntStrip radix s1

/-! ## `src/crypto.js`: hex codec -/

/-- `Uint8Array` element assignment: `ToUint8` reduces modulo 256 and sends
`NaN` to `0`. -/
def toUint8 (v : Option Int) : Nat :=
  match v with
  | none => 0
  | some n => (n % 256).toNat

/-- The decoding loop of `hexToBytes`: `bytes[i/2] = parseInt(substring(i, i+2), 16)`
two characters at a time (the caller guarantees even length). -/
def decodeHexPairs : List Char → List Nat
  | a :: b :: rest => toUint8 (jsParseInt 16 [a, b]) :: decodeHexPairs rest
  | _ => []

/-- `hexToBytes(hex)`: strip whitespace, lowercase, throw on odd length,
then decode pairwise.  The thrown `Error` is the `Except.error` branch. -/
def hexToBytes (hex : String) : Except String (List Nat) :=
  let cleanHex := jsToLower (jsStripWhitespace hex)
  if cleanHex.length % 2 ≠ 0 then Except.error ("Invalid hex string: odd length")
  else Except.ok (decodeHexPairs cleanHex.data)

/-- `byte.toString(16)` for a natural number: lowercase hex digits, most
significant first.  Digit characters: values 0-9 map to code points 48-57,
values 10-15 to 97-102. -/
def hexDigitChar (n : Nat) : Char :=
  if n < 10 then Char.ofNat (48 + n) else Char.ofNat (87 + n)

/-- `Number.prototype.toString(16)` on a natural number. -/
def jsToString16 (n : Nat) : List Char :=
  if _h : n < 16 then [hexDigitChar n]
  else jsToString16 (n / 16) ++ [hexDigitChar (n % 16)]
decreasing_by exact Nat.div_lt_self (by omega) (by omega)

/-- `.padStart(2, '0')`. -/
def padStart2 (cs : List Char) : List Char :=
  if cs.length < 2 then List.replicate (2 - cs.length) '0' ++ cs else cs

/-- `bytesToHex(bytes)`: each byte rendered as two lowercase hex characters,
joined. -/
def bytesToHex (bytes : List Nat) : String :=
  String.mk ((bytes.map (fun b => padStart2 (jsToString16 b))).flatten)

/-! ## `src/crypto.js`: commitment check -/

/-- `verifySeed(seed, expectedHash)`: decode the seed (a thrown decoding
error is caught and returns `false`), hash it with the injected keccak256
capability, and compare hex digests case-insensitively. -/
def verifySeed (keccak256 : List Nat → String) (seed expectedHash : String) : Bool :=
  match hexToBytes seed with
  | Except.error _ => false
  | Except.ok seedBytes =>
    jsToLower (keccak256 seedBytes) == jsToLower expectedHash

/-! ## `src/crypto.js`: outcome reconstruction -/

/-- The `intValue` of `generateDeterministicRandom`: HMAC-SHA256 of
`"<seed>:<nonce>"` keyed by the seed, first 8 hex characters parsed with
`parseInt(…, 16)`. -/
def derivedValue (hmacSHA256 : String → String → String)
    (seed : String) (nonce : Nat) : Option Int :=
  let message := seed ++ ":" ++ toString nonce
  let hash := hmacSHA256 message seed
  let hexValue := hash.data.take 8
  jsParseInt 16 hexValue

/-- `generateDeterministicRandom(seed, nonce)`: normalize the derived 32-bit
value to `[0,1]` dividing by `0xffffffff`; `none` models a `NaN` result. -/
def generateDeterministicRandom (hmacSHA256 : String → String → String)
    (seed : String) (nonce : Nat) : Option ℚ :=
  (derivedValue hmacSHA256 seed nonce).map (fun (v : Int) => (v : ℚ) / (0xffffffff : ℚ))

/-- One iteration of the `rowConfig.forEach` loop in `generateDeathTiles`:
`Math.floor(random * tiles)`. -/
def deathTileStep (hmacSHA256 : String → String → String)
    (seed : String) (index : Nat) (tiles : Int) : Option Int :=
  (generateDeterministicRandom hmacSHA256 seed index).map
    (fun random => ⌊random * (tiles : ℚ)⌋)

/-- The `forEach` loop of `generateDeathTiles`, pushing one entry per row. -/
def generateDeathTilesGo (hmacSHA256 : String → String → String)
    (seed : String) : Nat → List Int → List (Option Int)
  | _, [] => []
  | index, tiles :: rest =>
    deathTileStep hmacSHA256 seed index tiles ::
      generateDeathTilesGo hmacSHA256 seed (index + 1) rest

/-- `generateDeathTiles(seed, rowConfig)`: empty seed is falsy and yields
`[]`; otherwise one death-tile index per configured row. -/
def generateDeathTiles (hmacSHA256 : String → String → String)
    (seed : String) (rowConfig : List Int) : List (Option Int) :=
  if seed = "" then [] else generateDeathTilesGo hmacSHA256 seed 0 rowConfig

/-! ## `src/crypto.js`: round-configuration parsing -/

/-- `rowConfigStr.split(',')` (`,` is code point 44). -/
def splitOnComma : List Char → List (List Char)
  | [] => [[]]
  | c :: rest =>
    if c.toNat = 44 then [] :: splitOnComma rest
    else
      match splitOnComma rest with
      | t :: ts => (c :: t) :: ts
      | [] => [[c]]

/-- `parseRowConfig(rowConfigStr)`: split on commas, trim, drop empty
tokens, `parseInt(s, 10)`, keep only values that are numbers (`!isNaN`)
and `> 0`. -/
def parseRowConfig (rowConfigStr : String) : List Int :=
  if rowConfigStr = "" then []
  else
    ((((splitOnComma rowConfigStr.data).map
        (fun t => jsTrim (String.mk t))).filter
        (fun s => 0 < s.length)).map
        (fun s => jsParseInt 10 s.data)).filterMap
        (fun o => o.bind (fun n => if 0 < n then some n else none))

/-! ## `src/crypto.js`: validation and result assembly -/

/-- The raw inputs handed to the core (`gameData` in the source). -/
structure GameData where
  seedHash : String
  seed : String
  rowConfig : List Int
deriving DecidableEq

/-- The record returned by `validateGameData`. -/
structure ValidationResult where
  isValid : Bool
  errors : List String
deriving DecidableEq

/-- `/^[a-fA-F0-9]+$/.test(s)`: non-empty and every character a hex digit
(digit value below 16, any case). -/
def regexHexTest (s : String) : Bool :=
  !s.data.isEmpty && s.data.all (fun c => ((digitVal c).getD 16) < 16)

/-- `validateGameData(gameData)`: collect the error messages in source
order; valid iff none. -/
def validateGameData (g : GameData) : ValidationResult :=
  let seedHashErrors :=
    if g.seedHash = "" ∨ (jsTrim g.seedHash).length = 0 then
      ["Seed hash is required"]
    else if !regexHexTest (jsTrim g.seedHash) then
      ["Seed hash must be a valid hexadecimal string"]
    else []
  let seedErrors :=
    if g.seed = "" ∨ (jsTrim g.seed).length = 0 then
      ["Revealed seed is required"]
    else if !regexHexTest (jsTrim g.seed) then
      ["Revealed seed must be a valid hexadecimal string"]
    else []
  let rowConfigErrors :=
    if g.rowConfig.length = 0 then
      ["Row configuration is required"]
    else if g.rowConfig.any (fun n => decide (n < 1) || decide (10 < n)) then
      ["Row configuration must contain numbers between 1 and 10"]
    else []
  let errors := seedHashErrors ++ seedErrors ++ rowConfigErrors
  { isValid := errors.isEmpty, errors := errors }

/-- `verification` part of the result record.  The wall-clock `timestamp`
field is presentation-only and is not part of the model. -/
structure VerificationRec where
  seedValid : Bool
  deathTiles : List (Option Int)
  verifierVersion : String
deriving DecidableEq

/-- `summary` part of the result record. -/
structure SummaryRec where
  totalRows : Nat
  totalTiles : Int
deriving DecidableEq

/-- `createVerificationResult`'s record. -/
structure VerificationResult where
  gameData : GameData
  verification : VerificationRec
  summary : SummaryRec
deriving DecidableEq

/-- `createVerificationResult(gameData, isValid, deathTiles)`. -/
def createVerificationResult (g : GameData) (isValid : Bool)
    (deathTiles : List (Option Int)) : VerificationResult :=
  { gameData := g
    verification :=
      { seedValid := isValid
        deathTiles := deathTiles
        verifierVersion := "1.0.0" }
    summary :=
      { totalRows := g.rowConfig.length
        totalTiles := g.rowConfig.foldl (fun sum n => sum + n) 0 } }

/-! ## `src/script.js`: combined verification -/

/-- `verifyGame(gameData)`: commitment check, reconstruction (always), and
result assembly. -/
def verifyGame (keccak256 : List Nat → String)
    (hmacSHA256 : String → String → String) (g : GameData) : VerificationResult :=
  let isValid := verifySeed keccak256 g.seed g.seedHash
  let deathTiles := generateDeathTiles hmacSHA256 g.seed g.rowConfig
  createVerificationResult g isValid deathTiles

/-! ## Digest well-formedness and the spec-side derivation -/

/-- A lowercase hexadecimal character: `0`-`9` (code points 48-57) or
`a`-`f` (97-102). -/
def isLowerHexChar (c : Char) : Bool :=
  decide ((48 ≤ c.toNat ∧ c.toNat ≤ 57) ∨ (97 ≤ c.toNat ∧ c.toNat ≤ 102))

/-- A well-formed 256-bit digest rendered as hex: 64 lowercase hex
characters (the output contract of `CryptoJS.HmacSHA256(...).toString(Hex)`). -/
def IsHexDigest (s : String) : Prop :=
  s.data.length = 64 ∧ ∀ c ∈ s.data, isLowerHexChar c = true

instance (s : String) : Decidable (IsHexDigest s) :=
  inferInstanceAs (Decidable (s.data.length = 64 ∧ ∀ c ∈ s.data, isLowerHexChar c = true))

/-- The injected HMAC capability always returns a well-formed hex digest. -/
def HmacWellFormed (hmacSHA256 : String → String → String) : Prop :=
  ∀ message key, IsHexDigest (hmacSHA256 message key)

/-- The value of a digit string, most significant first (strict hex parse of
the spec's step 3; agrees with `parseDigits 16` on hex characters). -/
def specOutcomeIndex (hmacSHA256 : String → String → String)
    (seed : String) (i : Nat) (n : Nat) : Int :=
  let message := seed ++ ":" ++ toString i
  let digest := hmacSHA256 message seed
  let v := parseDigits 16 (digest.data.take 8)
  ⌊((v : ℚ) / (0xffffffff : ℚ)) * (n : ℚ)⌋

/-! ## Concrete oracle instantiations used by witnesses -/

/-- A constant well-formed digest oracle, for concrete instantiations. -/
def hmacTest : String → String → String :=
  fun _ _ => "0123456789abcdef0123456789abcdef0123456789abcdef0123456789abcdef"

/-- The maximal-digest oracle: every digest is all `f`, so the derived
32-bit value is `0xffffffff`. -/
def hmacAllF : String → String → String :=
  fun _ _ => "ffffffffffffffffffffffffffffffffffffffffffffffffffffffffffffffff"

/-- A constant keccak oracle for concrete instantiations. -/
def keccakTest : List Nat → String := fun _ => "aa"

/-- Decidable equality for `Except`, so concrete codec results can be
checked by `decide`. -/
def exceptDecEq {ε α : Type} [DecidableEq ε] [DecidableEq α] :
    DecidableEq (Except ε α)
  | Except.error e, Except.error f =>
    if h : e = f then isTrue (by rw [h])
    else isFalse (fun hc => by injection hc with h2; exact h h2)
  | Except.error _, Except.ok _ => isFalse (fun hc => Except.noConfusion hc)
  | Except.ok _, Except.error _ => isFalse (fun hc => Except.noConfusion hc)
  | Except.ok x, Except.ok y =>
    if h : x = y then isTrue (by rw [h])
    else isFalse (fun hc => by injection hc with h2; exact h h2)

instance {ε α : Type} [DecidableEq ε] [DecidableEq α] : DecidableEq (Except ε α) :=
  exceptDecEq

/-! ## Character-level lemmas -/

theorem char_toNat_ofNat {n : Nat} (h : n < 55296) : (Char.ofNat n).toNat = n := by
  have hv : n.isValidChar := Or.inl h
  rw [Char.ofNat, dif_pos hv]
  simp [Char.ofNatAux, Char.toNat, UInt32.toNat]

theorem isLowerHexChar_ranges {c : Char} (h : isLowerHexChar c = true) :
    (48 ≤ c.toNat ∧ c.toNat ≤ 57) ∨ (97 ≤ c.toNat ∧ c.toNat ≤ 102) :=
  of_decide_eq_true h

theorem isLowerHexChar_not_ws {c : Char} (h : isLowerHexChar c = true) :
    jsIsWhitespace c = false := by
  have hr := isLowerHexChar_ranges h
  simp only [jsIsWhitespace, decide_eq_false_iff_not]
  omega

theorem digitVal_of_digit {c : Char} (h1 : 48 ≤ c.toNat) (h2 : c.toNat ≤ 57) :
    digitVal c = some (c.toNat - 48) := by
  unfold digitVal
  rw [if_pos ⟨h1, h2⟩]

theorem digitVal_of_lower {c : Char} (h1 : 97 ≤ c.toNat) (h2 : c.toNat ≤ 122) :
    digitVal c = some (c.toNat - 87) := by
  unfold digitVal
  rw [if_neg (by omega), if_pos ⟨h1, h2⟩]

theorem digitVal_lower_hex {c : Char} (h : isLowerHexChar c = true) :
    ∃ v, digitVal c = some v ∧ v < 16 := by
  rcases isLowerHexChar_ranges h with ⟨h1, h2⟩ | ⟨h1, h2⟩
  · exact ⟨c.toNat - 48, digitVal_of_digit h1 h2, by omega⟩
  · exact ⟨c.toNat - 87, digitVal_of_lower h1 (by omega), by omega⟩

theorem radixDigitVal16_hex {c : Char} (h : isLowerHexChar c = true) :
    radixDigitVal 16 c = digitVal c := by
  obtain ⟨v, hv, hlt⟩ := digitVal_lower_hex h
  unfold radixDigitVal
  rw [hv, Option.some_bind, if_pos hlt]

theorem radixDigitVal16_hex_isSome {c : Char} (h : isLowerHexChar c = true) :
    (radixDigitVal 16 c).isSome = true := by
  obtain ⟨v, hv, _⟩ := digitVal_lower_hex h
  rw [radixDigitVal16_hex h, hv]
  rfl

theorem radixDigitVal_lt {radix : Nat} {c : Char} {v : Nat}
    (h : radixDigitVal radix c = some v) : v < radix := by
  unfold radixDigitVal at h
  cases hd : digitVal c with
  | none => rw [hd] at h; cases h
  | some w =>
    rw [hd, Option.some_bind] at h
    by_cases hw : w < radix
    · rw [if_pos hw] at h
      injection h with h2
      omega
    · rw [if_neg hw] at h
      cases h

/-! ## `parseDigits` and `jsParseInt` lemmas -/

theorem parseDigits_foldl_lt (radix : Nat) (hr : 0 < radix) (ds : List Char) :
    ∀ a : Nat, ds.foldl (fun a c => a * radix + (radixDigitVal radix c).getD 0) a
      < (a + 1) * radix ^ ds.length := by
  induction ds with
  | nil =>
    intro a
    simp only [List.foldl_nil, List.length_nil, pow_zero, Nat.mul_one]
    omega
  | cons c ds ih =>
    intro a
    have hd : (radixDigitVal radix c).getD 0 < radix := by
      cases hv : radixDigitVal radix c with
      | none => simpa using hr
      | some v => simpa using radixDigitVal_lt hv
    simp only [List.foldl_cons, List.length_cons]
    calc ds.foldl (fun a c => a * radix + (radixDigitVal radix c).getD 0)
          (a * radix + (radixDigitVal radix c).getD 0)
        < (a * radix + (radixDigitVal radix c).getD 0 + 1) * radix ^ ds.length := ih _
      _ ≤ ((a + 1) * radix) * radix ^ ds.length := by
          apply Nat.mul_le_mul_right
          rw [Nat.succ_mul]
          omega
      _ = (a + 1) * radix ^ (ds.length + 1) := by ring

theorem parseDigits_lt (radix : Nat) (hr : 0 < radix) (ds : List Char) :
    parseDigits radix ds < radix ^ ds.length := by
  have h := parseDigits_foldl_lt radix hr ds 0
  simpa [parseDigits] using h

theorem jsParseInt16_all_hex {ds : List Char} (hne : ds ≠ [])
    (hhex : ∀ c ∈ ds, isLowerHexChar c = true) :
    jsParseInt 16 ds = some ((↑(parseDigits 16 ds) : Int)) := by
  obtain ⟨c, rest, rfl⟩ : ∃ c rest, ds = c :: rest := by
    cases ds with
    | nil => exact absurd rfl hne
    | cons c r => exact ⟨c, r, rfl⟩
  have hc := hhex c (List.mem_cons_self c rest)
  have hcr := isLowerHexChar_ranges hc
  have hdw : (c :: rest).dropWhile jsIsWhitespace = c :: rest := by
    rw [List.dropWhile_cons, isLowerHexChar_not_ws hc]
    simp
  have hhead : headCode (c :: rest) = c.toNat := by
    simp [headCode]
  have hcore : jsParseIntCore 16 (c :: rest) =
      some ((↑(parseDigits 16 (c :: rest)) : Int)) := by
    unfold jsParseIntCore
    rw [List.takeWhile_eq_self_iff.mpr
      (fun x hx => radixDigitVal16_hex_isSome (hhex x hx))]
    rw [if_neg (by simp)]
  have hmark : hasHexMark (c :: rest) = false := by
    cases rest with
    | nil =>
      simp [hasHexMark]
    | cons c1 r =>
      have hc1 := isLowerHexChar_ranges (hhex c1 (by simp))
      simp only [hasHexMark, headCode, List.drop_succ_cons, List.drop_zero,
        List.headD_cons, decide_eq_false_iff_not]
      omega
  have hstrip : jsParseIntStrip 16 (c :: rest) =
      some ((↑(parseDigits 16 (c :: rest)) : Int)) := by
    unfold jsParseIntStrip
    rw [if_neg (fun hm => by rw [hmark] at hm; exact Bool.false_ne_true hm.2)]
    exact hcore
  unfold jsParseInt
  rw [hdw]
  simp only [hhead]
  rw [if_neg (by simp), if_neg (by omega), if_neg (by omega)]
  exact hstrip

/-! ## Reconstruction loop lemmas -/

theorem generateDeathTilesGo_length (hmacSHA256 : String → String → String)
    (seed : String) (cfg : List Int) :
    ∀ idx : Nat, (generateDeathTilesGo hmacSHA256 seed idx cfg).length = cfg.length := by
  induction cfg with
  | nil => intro idx; rfl
  | cons t rest ih =>
    intro idx
    simp only [generateDeathTilesGo, List.length_cons, ih (idx + 1)]

theorem generateDeathTilesGo_getElem (hmacSHA256 : String → String → String)
    (seed : String) (cfg : List Int) :
    ∀ idx i : Nat, (generateDeathTilesGo hmacSHA256 seed idx cfg)[i]? =
      cfg[i]?.map (fun tiles => deathTileStep hmacSHA256 seed (idx + i) tiles) := by
  induction cfg with
  | nil => intro idx i; simp [generateDeathTilesGo]
  | cons t rest ih =>
    intro idx i
    cases i with
    | zero => simp [generateDeathTilesGo]
    | succ j =>
      simp only [generateDeathTilesGo, List.getElem?_cons_succ]
      rw [ih (idx + 1) j]
      rw [show idx + 1 + j = idx + (j + 1) from by omega]

/-- Element form of the death-tile list for a non-empty seed. -/
theorem generateDeathTiles_getElem (hmacSHA256 : String → String → String)
    {seed : String} (hs : seed ≠ "") {cfg : List Int} {i : Nat}
    (hi : i < cfg.length) :
    (generateDeathTiles hmacSHA256 seed cfg)[i]? =
      some (deathTileStep hmacSHA256 seed i cfg[i]) := by
  unfold generateDeathTiles
  rw [if_neg hs, generateDeathTilesGo_getElem hmacSHA256 seed cfg 0 i,
    List.getElem?_eq_getElem hi]
  simp

/-! ## Normalization arithmetic -/

/-- Exact-rational form of `Math.floor(intValue / 0xffffffff * tiles)` is
natural division by `0xffffffff`. -/
theorem floor_normalize (v t : Nat) :
    ⌊(v : ℚ) / (0xffffffff : ℚ) * (t : ℚ)⌋ = ((v * t) / 0xffffffff : Nat) := by
  have h := Rat.floor_intCast_div_natCast ((v * t : Nat) : ℤ) 0xffffffff
  have harg : ((((v * t : Nat) : ℤ) : ℚ) / ((0xffffffff : Nat) : ℚ)) =
      (v : ℚ) / (0xffffffff : ℚ) * (t : ℚ) := by
    push_cast
    ring
  rw [harg] at h
  rw [h]
  norm_cast

theorem div_ffffffff_le {v t : Nat} (hv : v ≤ 0xffffffff) :
    (v * t) / 0xffffffff ≤ t := by
  calc (v * t) / 0xffffffff ≤ (0xffffffff * t) / 0xffffffff :=
        Nat.div_le_div_right (Nat.mul_le_mul_right t hv)
    _ = t := Nat.mul_div_right t (by norm_num)

theorem div_ffffffff_lt {v t : Nat} (hv : v < 0xffffffff) (ht : 0 < t) :
    (v * t) / 0xffffffff < t := by
  rw [Nat.div_lt_iff_lt_mul (by norm_num)]
  calc v * t < 0xffffffff * t := (Nat.mul_lt_mul_right ht).mpr hv
    _ = t * 0xffffffff := Nat.mul_comm _ _

/-- The derived 32-bit value under a well-formed digest: the lenient
`parseInt` agrees with the strict digit-string value and is below `2^32`. -/
theorem derivedValue_wellFormed {hmacSHA256 : String → String → String}
    (hw : HmacWellFormed hmacSHA256) (seed : String) (nonce : Nat) :
    derivedValue hmacSHA256 seed nonce =
      some ((↑(parseDigits 16 ((hmacSHA256 (seed ++ ":" ++ toString nonce) seed).data.take 8)) : Int)) ∧
    parseDigits 16 ((hmacSHA256 (seed ++ ":" ++ toString nonce) seed).data.take 8) ≤ 4294967295 := by
  obtain ⟨hlen, hhex⟩ := hw (seed ++ ":" ++ toString nonce) seed
  set digest := hmacSHA256 (seed ++ ":" ++ toString nonce) seed with hdig
  have hdslen : (digest.data.take 8).length = 8 := by
    rw [List.length_take, hlen]
    omega
  have hdsne : digest.data.take 8 ≠ [] := by
    intro hnil
    rw [hnil] at hdslen
    cases hdslen
  have hdshex : ∀ c ∈ digest.data.take 8, isLowerHexChar c = true :=
    fun c hc => hhex c (List.take_subset 8 digest.data hc)
  constructor
  · unfold derivedValue
    exact jsParseInt16_all_hex hdsne hdshex
  · have hlt := parseDigits_lt 16 (by norm_num) (digest.data.take 8)
    rw [hdslen] at hlt
    norm_num at hlt
    omega

/-- Closed form of one loop step under a well-formed digest oracle and a
non-negative outcome-space size. -/
theorem deathTileStep_wellFormed {hmacSHA256 : String → String → String}
    (hw : HmacWellFormed hmacSHA256) (seed : String) (i : Nat) {tiles : Int}
    (ht : 0 ≤ tiles) :
    deathTileStep hmacSHA256 seed i tiles =
      some ((↑((parseDigits 16 ((hmacSHA256 (seed ++ ":" ++ toString i) seed).data.take 8)
        * tiles.toNat) / 0xffffffff) : Int)) := by
  obtain ⟨hdv, _⟩ := derivedValue_wellFormed hw seed i
  set n := parseDigits 16 ((hmacSHA256 (seed ++ ":" ++ toString i) seed).data.take 8) with hn
  obtain ⟨t, hti⟩ : ∃ t : Nat, tiles = (t : Int) :=
    ⟨tiles.toNat, (Int.toNat_of_nonneg ht).symm⟩
  subst hti
  unfold deathTileStep generateDeterministicRandom
  rw [hdv]
  simp only [Option.map_some', Int.toNat_natCast]
  congr 1
  push_cast
  exact floor_normalize n t

/-- The constant test oracle satisfies the digest contract. -/
theorem hmacTest_wellFormed : HmacWellFormed hmacTest :=
  fun _ _ => of_decide_eq_true rfl

/-! ## Claims about the outcome reconstructor -/

/-- **C1** (amended).  For every injected well-formed HMAC oracle, non-empty
seed, round configuration and index `i` with `round_config[i] ≥ 1`, the
reconstructed entry `v` is an integer with `0 ≤ v ≤ round_config[i]`; it is
strictly below `round_config[i]` whenever the derived 32-bit value is not
`0xffffffff` (and a round with `round_config[i] = 1` then yields `0`).  In
the maximal-digest boundary case the code yields exactly `round_config[i]`
(there is no clamp), so the strict bound of the original claim fails there. -/
theorem claim1_amended (hmacSHA256 : String → String → String)
    (hw : HmacWellFormed hmacSHA256) (seed : String) (hs : seed ≠ "")
    (cfg : List Int) (i : Nat) (hi : i < cfg.length) (ht : 1 ≤ cfg[i]) :
    ∃ v : Int, (generateDeathTiles hmacSHA256 seed cfg)[i]? = some (some v) ∧
      0 ≤ v ∧ v ≤ cfg[i] ∧
      (derivedValue hmacSHA256 seed i ≠ some 4294967295 → v < cfg[i]) ∧
      (cfg[i] = 1 → derivedValue hmacSHA256 seed i ≠ some 4294967295 → v = 0) := by
  obtain ⟨hdv, hle⟩ := derivedValue_wellFormed hw seed i
  set n := parseDigits 16 ((hmacSHA256 (seed ++ ":" ++ toString i) seed).data.take 8) with hn
  obtain ⟨t, hti⟩ : ∃ t : Nat, cfg[i] = (t : Int) :=
    ⟨cfg[i].toNat, (Int.toNat_of_nonneg (by omega)).symm⟩
  have htpos : 0 < t := by
    rw [hti] at ht
    exact_mod_cast ht
  refine ⟨(↑((n * t) / 0xffffffff) : Int), ?_, ?_, ?_, ?_, ?_⟩
  · rw [generateDeathTiles_getElem hmacSHA256 hs hi,
      deathTileStep_wellFormed hw seed i (by omega)]
    rw [hti, Int.toNat_natCast, ← hn]
  · exact Int.natCast_nonneg _
  · rw [hti]
    exact_mod_cast div_ffffffff_le hle
  · intro hne
    have hnM : n < 4294967295 := by
      rcases Nat.lt_or_ge n 4294967295 with h | h
      · exact h
      · exfalso
        apply hne
        rw [hdv]
        congr 1
        omega
    rw [hti]
    exact_mod_cast div_ffffffff_lt hnM htpos
  · intro h1 hne
    have ht1 : t = 1 := by
      rw [hti] at h1
      exact_mod_cast h1
    have hnM : n < 4294967295 := by
      rcases Nat.lt_or_ge n 4294967295 with h | h
      · exact h
      · exfalso
        apply hne
        rw [hdv]
        congr 1
        omega
    subst ht1
    have : (n * 1) / 0xffffffff = 0 := by omega
    rw [this]
    rfl

/-- **C1** witness: the amended bound at a concrete well-formed oracle. -/
theorem claim1_witness :
    ∃ v : Int, (generateDeathTiles hmacTest "ab" [3])[0]? = some (some v) ∧
      0 ≤ v ∧ v ≤ 3 ∧
      (derivedValue hmacTest "ab" 0 ≠ some 4294967295 → v < 3) ∧
      ((3 : Int) = 1 → derivedValue hmacTest "ab" 0 ≠ some 4294967295 → v = 0) :=
  claim1_amended hmacTest hmacTest_wellFormed "ab" (by decide) [3] 0
    (by decide) (by decide)

/-- **C1** counterexample: with the all-`f` digest oracle the derived 32-bit
value is `0xffffffff` and the reconstructed entry equals `round_config[0] = 2`
instead of being strictly below it. -/
theorem claim1_counterexample :
    generateDeathTiles hmacAllF "ab" [2] = [some 2] ∧ ¬ ((2 : Int) < 2) := by
  refine ⟨?_, by omega⟩
  have hd : derivedValue hmacAllF "ab" 0 = some 4294967295 := by decide
  unfold generateDeathTiles
  rw [if_neg (by decide)]
  show [deathTileStep hmacAllF "ab" 0 2] = [some 2]
  unfold deathTileStep generateDeterministicRandom
  rw [hd]
  simp only [Option.map_some']
  congr 1
  have h1 : (((4294967295 : Int) : ℚ)) / (0xffffffff : ℚ) * ((2 : Int) : ℚ) =
      ((2 : Int) : ℚ) := by
    push_cast
    norm_num
  rw [h1, Int.floor_intCast]

/-- **C2**.  Each reconstructed entry follows the documented derivation:
HMAC over `"<seed_hex>:<i>"` keyed by the seed, first 8 hex characters of
the digest as a 32-bit value `v`, `r = v / 0xFFFFFFFF` (divisor `2^32 - 1`),
and `floor(r * round_config[i])`. -/
theorem claim2_theorem (hmacSHA256 : String → String → String)
    (hw : HmacWellFormed hmacSHA256) (seed : String) (hs : seed ≠ "")
    (cfg : List Int) (i : Nat) (hi : i < cfg.length) (ht : 0 ≤ cfg[i]) :
    (generateDeathTiles hmacSHA256 seed cfg)[i]? =
      some (some (specOutcomeIndex hmacSHA256 seed i cfg[i].toNat)) := by
  rw [generateDeathTiles_getElem hmacSHA256 hs hi,
    deathTileStep_wellFormed hw seed i ht]
  unfold specOutcomeIndex
  rw [floor_normalize]

/-- **C2** witness at a concrete well-formed oracle. -/
theorem claim2_witness :
    (generateDeathTiles hmacTest "ab" [3])[0]? =
      some (some (specOutcomeIndex hmacTest "ab" 0 3)) :=
  claim2_theorem hmacTest hmacTest_wellFormed "ab" (by decide) [3] 0
    (by decide) (by decide)

/-- **C9**.  Rounds are independent: two configurations agreeing at index
`i` reconstruct the same entry at `i`, whatever the other entries are. -/
theorem claim9_theorem (hmacSHA256 : String → String → String) (seed : String)
    (cfg1 cfg2 : List Int) (i : Nat) (h1 : i < cfg1.length) (h2 : i < cfg2.length)
    (heq : cfg1[i] = cfg2[i]) :
    (generateDeathTiles hmacSHA256 seed cfg1)[i]? =
      (generateDeathTiles hmacSHA256 seed cfg2)[i]? := by
  by_cases hs : seed = ""
  · unfold generateDeathTiles
    rw [if_pos hs, if_pos hs]
  · rw [generateDeathTiles_getElem hmacSHA256 hs h1,
      generateDeathTiles_getElem hmacSHA256 hs h2, heq]

/-- **C9** witness: configurations `[5,7]` and `[5,9]` agree at index 0. -/
theorem claim9_witness :
    (generateDeathTiles hmacTest "cd" [5, 7])[0]? =
      (generateDeathTiles hmacTest "cd" [5, 9])[0]? :=
  claim9_theorem hmacTest "cd" [5, 7] [5, 9] 0 (by decide) (by decide) (by decide)

/-! ## Lowercasing lemmas and the commitment check -/

theorem string_mk_data (s : String) : String.mk s.data = s := by
  cases s
  rfl

theorem jsToLowerChar_idem (c : Char) : jsToLowerChar (jsToLowerChar c) = jsToLowerChar c := by
  unfold jsToLowerChar
  by_cases h : 65 ≤ c.toNat ∧ c.toNat ≤ 90
  · rw [if_pos h]
    have h2 : (Char.ofNat (c.toNat + 32)).toNat = c.toNat + 32 :=
      char_toNat_ofNat (by omega)
    rw [if_neg (by rw [h2]; omega)]
  · rw [if_neg h, if_neg h]

theorem jsToLower_idem (s : String) : jsToLower (jsToLower s) = jsToLower s := by
  unfold jsToLower
  rw [List.map_map]
  congr 1
  exact List.map_congr_left (fun c _ => jsToLowerChar_idem c)

/-- **C6**.  The commitment comparison in `verifySeed` is case-insensitive
in the published hash: lowering the expected hash leaves the verdict
unchanged, for every keccak oracle, seed and hash string. -/
theorem claim6_theorem (keccak256 : List Nat → String) (seed expectedHash : String) :
    verifySeed keccak256 seed (jsToLower expectedHash) =
      verifySeed keccak256 seed expectedHash := by
  unfold verifySeed
  cases hexToBytes seed with
  | error e => rfl
  | ok seedBytes => rw [jsToLower_idem]

/-! ## Hex codec round-trip -/

theorem jsToLowerChar_hex {c : Char} (h : isLowerHexChar c = true) :
    jsToLowerChar c = c := by
  have hr := isLowerHexChar_ranges h
  unfold jsToLowerChar
  rw [if_neg (by omega)]

theorem jsToLower_hex {s : String} (h : ∀ c ∈ s.data, isLowerHexChar c = true) :
    jsToLower s = s := by
  unfold jsToLower
  have hm : s.data.map jsToLowerChar = s.data.map id :=
    List.map_congr_left (fun c hc => by rw [jsToLowerChar_hex (h c hc)]; rfl)
  rw [hm, List.map_id]

theorem jsStripWhitespace_hex {s : String} (h : ∀ c ∈ s.data, isLowerHexChar c = true) :
    jsStripWhitespace s = s := by
  unfold jsStripWhitespace
  rw [List.filter_eq_self.mpr (fun c hc => by rw [isLowerHexChar_not_ws (h c hc)]; rfl)]

theorem hexDigitChar_digitVal {c : Char} (h : isLowerHexChar c = true) :
    hexDigitChar ((digitVal c).getD 0) = c := by
  rcases isLowerHexChar_ranges h with ⟨h1, h2⟩ | ⟨h1, h2⟩
  · rw [digitVal_of_digit h1 h2]
    show hexDigitChar (c.toNat - 48) = c
    unfold hexDigitChar
    rw [if_pos (by omega), show 48 + (c.toNat - 48) = c.toNat from by omega]
    exact Char.ofNat_toNat c
  · rw [digitVal_of_lower h1 (by omega)]
    show hexDigitChar (c.toNat - 87) = c
    unfold hexDigitChar
    rw [if_neg (by omega), show 87 + (c.toNat - 87) = c.toNat from by omega]
    exact Char.ofNat_toNat c

theorem decode_pair_val {a b : Char} (ha : isLowerHexChar a = true)
    (hb : isLowerHexChar b = true) :
    toUint8 (jsParseInt 16 [a, b]) = (digitVal a).getD 0 * 16 + (digitVal b).getD 0 := by
  obtain ⟨va, hva, hva16⟩ := digitVal_lower_hex ha
  obtain ⟨vb, hvb, hvb16⟩ := digitVal_lower_hex hb
  have hparse := @jsParseInt16_all_hex [a, b] (by simp)
    (by
      intro c hc
      rcases List.mem_cons.mp hc with rfl | hc2
      · exact ha
      · rcases List.mem_cons.mp hc2 with rfl | hc3
        · exact hb
        · cases hc3)
  have hval : parseDigits 16 [a, b] = va * 16 + vb := by
    unfold parseDigits
    simp only [List.foldl_cons, List.foldl_nil,
      radixDigitVal16_hex ha, radixDigitVal16_hex hb, hva, hvb, Option.getD_some]
    omega
  rw [hparse, hval]
  unfold toUint8
  rw [hva, hvb]
  show (((va * 16 + vb : Nat) : Int) % 256).toNat = va * 16 + vb
  rw [Int.emod_eq_of_lt (Int.natCast_nonneg _) (by exact_mod_cast by omega)]
  exact Int.toNat_natCast _

theorem encode_byte {va vb : Nat} (hva : va < 16) (hvb : vb < 16) :
    padStart2 (jsToString16 (va * 16 + vb)) = [hexDigitChar va, hexDigitChar vb] := by
  have h0 : hexDigitChar 0 = '0' := by decide
  by_cases hz : va = 0
  · subst hz
    rw [show 0 * 16 + vb = vb from by omega]
    unfold jsToString16
    rw [dif_pos hvb]
    unfold padStart2
    rw [if_pos (by simp)]
    rw [h0]
    rfl
  · unfold jsToString16
    rw [dif_neg (by omega)]
    rw [show (va * 16 + vb) / 16 = va from by omega,
      show (va * 16 + vb) % 16 = vb from by omega]
    unfold jsToString16
    rw [dif_pos hva]
    unfold padStart2
    rw [if_neg (by simp)]
    rfl

theorem decode_encode : ∀ (cs : List Char),
    (∀ c ∈ cs, isLowerHexChar c = true) → cs.length % 2 = 0 →
    ((decodeHexPairs cs).map (fun b => padStart2 (jsToString16 b))).flatten = cs
  | [], _, _ => rfl
  | [c], _, he => by simp at he
  | a :: b :: rest, hh, he => by
    have ha := hh a (by simp)
    have hb := hh b (by simp)
    have hrest : ∀ c ∈ rest, isLowerHexChar c = true := fun c hc => hh c (by simp [hc])
    have herest : rest.length % 2 = 0 := by
      simp only [List.length_cons] at he
      omega
    have hva16 : (digitVal a).getD 0 < 16 := by
      obtain ⟨va, hva, h16⟩ := digitVal_lower_hex ha
      rw [hva]
      exact h16
    have hvb16 : (digitVal b).getD 0 < 16 := by
      obtain ⟨vb, hvb, h16⟩ := digitVal_lower_hex hb
      rw [hvb]
      exact h16
    show ((toUint8 (jsParseInt 16 [a, b]) :: decodeHexPairs rest).map
      (fun b => padStart2 (jsToString16 b))).flatten = a :: b :: rest
    rw [List.map_cons, List.flatten_cons, decode_pair_val ha hb,
      encode_byte hva16 hvb16, hexDigitChar_digitVal ha, hexDigitChar_digitVal hb,
      decode_encode rest hrest herest]
    rfl

/-- **C7**.  The hex codec round-trips: decoding an even-length lowercase
hex string and re-encoding the bytes yields the string back. -/
theorem claim7_theorem (s : String) (hhex : ∀ c ∈ s.data, isLowerHexChar c = true)
    (heven : s.length % 2 = 0) :
    Except.map bytesToHex (hexToBytes s) = Except.ok s := by
  have hclean : jsToLower (jsStripWhitespace s) = s := by
    rw [jsStripWhitespace_hex hhex, jsToLower_hex hhex]
  unfold hexToBytes
  rw [hclean, if_neg (by omega)]
  show Except.ok (bytesToHex (decodeHexPairs s.data)) = Except.ok s
  congr 1
  unfold bytesToHex
  rw [decode_encode s.data hhex heven]

/-- **C7** witness at the concrete string `deadbeef`. -/
theorem claim7_witness :
    Except.map bytesToHex (hexToBytes ("deadbeef")) = Except.ok ("deadbeef") :=
  claim7_theorem ("deadbeef") (by decide) (by decide)

/-! ## Low-level decoding failures -/

/-- **C4** (amended).  `hexToBytes` surfaces exactly the odd-length case as
a typed failure; an even-length input always decodes to a byte list, even
when it contains non-hex characters (those decode silently). -/
theorem claim4_amended (s : String) :
    ((jsToLower (jsStripWhitespace s)).length % 2 ≠ 0 →
      hexToBytes s = Except.error ("Invalid hex string: odd length")) ∧
    ((jsToLower (jsStripWhitespace s)).length % 2 = 0 →
      hexToBytes s = Except.ok (decodeHexPairs (jsToLower (jsStripWhitespace s)).data)) := by
  unfold hexToBytes
  constructor
  · intro h
    rw [if_pos h]
  · intro h
    rw [if_neg (by omega)]

/-- **C4** witness: an odd-length input is a typed error. -/
theorem claim4_witness :
    hexToBytes ("abc") = Except.error ("Invalid hex string: odd length") :=
  (claim4_amended ("abc")).1 (by decide)

/-- **C4** counterexample: the all-non-hex input `zz` is not surfaced as a
failure; it silently decodes to the byte `0` (JS `parseInt` yields `NaN`
and the `Uint8Array` store coerces it to `0`). -/
theorem claim4_counterexample :
    hexToBytes ("zz") = Except.ok [0] := by decide

/-! ## Round-configuration parsing -/

/-- **C5**.  Tokens are trimmed and parsed with `parseInt(s, 10)`; tokens
that fail to parse or parse below 1 are dropped silently, so every kept
value is positive, and `"6,5,4,abc,2"` normalizes to `[6,5,4,2]`. -/
theorem claim5_theorem :
    parseRowConfig ("6,5,4,abc,2") = [6, 5, 4, 2] ∧
      ∀ s : String, (parseRowConfig s).all (fun n => decide (0 < n)) = true := by
  refine ⟨by decide, fun s => ?_⟩
  unfold parseRowConfig
  by_cases hs : s = ""
  · rw [if_pos hs]
    rfl
  · rw [if_neg hs]
    simp only [List.all_eq_true]
    intro n hn
    obtain ⟨o, _, ho⟩ := List.mem_filterMap.mp hn
    cases o with
    | none => cases ho
    | some m =>
      rw [Option.some_bind] at ho
      by_cases hm : 0 < m
      · rw [if_pos hm] at ho
        injection ho with ho2
        subst ho2
        exact decide_eq_true hm
      · rw [if_neg hm] at ho
        cases ho

/-- **C10**.  A token with a decimal prefix followed by junk, such as
`"3abc"`, is kept with its prefix value `3`; when the prefix is below 1,
as in `"0abc"`, it is dropped. -/
theorem claim10_theorem :
    parseRowConfig ("3abc") = [3] ∧
      parseRowConfig ("6,5,4,3abc,2") = [6, 5, 4, 3, 2] ∧
      parseRowConfig ("0abc") = [] := by
  refine ⟨by decide, by decide, by decide⟩

/-! ## Input validation -/

/-- **C3** (amended).  A request accepted by `validateGameData` has a
trimmed commitment hash and trimmed seed matching `^[0-9a-fA-F]+$`
(non-empty, hex characters only).  Even length is not checked, so the
byte-decodability half of the original claim does not hold. -/
theorem claim3_amended (g : GameData)
    (h : (validateGameData g).isValid = true) :
    regexHexTest (jsTrim g.seedHash) = true ∧ regexHexTest (jsTrim g.seed) = true := by
  unfold validateGameData at h
  simp only [List.isEmpty_eq_true, List.append_eq_nil] at h
  obtain ⟨⟨h1, h2⟩, _⟩ := h
  constructor
  · by_cases hc1 : g.seedHash = "" ∨ (jsTrim g.seedHash).length = 0
    · rw [if_pos hc1] at h1
      cases h1
    · rw [if_neg hc1] at h1
      cases hx : regexHexTest (jsTrim g.seedHash) with
      | true => rfl
      | false =>
        rw [if_pos (by rw [hx]; rfl)] at h1
        cases h1
  · by_cases hc2 : g.seed = "" ∨ (jsTrim g.seed).length = 0
    · rw [if_pos hc2] at h2
      cases h2
    · rw [if_neg hc2] at h2
      cases hx : regexHexTest (jsTrim g.seed) with
      | true => rfl
      | false =>
        rw [if_pos (by rw [hx]; rfl)] at h2
        cases h2

/-- **C3** witness: a request that passes validation indeed has hex-only
trimmed fields. -/
theorem claim3_witness :
    regexHexTest (jsTrim "ab") = true ∧ regexHexTest (jsTrim "cd") = true :=
  claim3_amended { seedHash := "ab", seed := "cd", rowConfig := [2] } (by decide)

/-- **C3** counterexample: `validateGameData` accepts odd-length hex
strings, so an accepted request need not decode to whole bytes. -/
theorem claim3_counterexample :
    (validateGameData { seedHash := "abc", seed := "abc", rowConfig := [2] }).isValid
      = true ∧ ("abc" : String).length % 2 = 1 := by decide

/-! ## Result assembly -/

/-- **C8**.  A failed commitment check is reported as `seedValid = false`
in the result record, and the full reconstruction is included regardless,
with one entry per configured round (for a non-empty seed). -/
theorem claim8_theorem (keccak256 : List Nat → String)
    (hmacSHA256 : String → String → String) (g : GameData)
    (hfail : verifySeed keccak256 g.seed g.seedHash = false) :
    (verifyGame keccak256 hmacSHA256 g).verification.seedValid = false ∧
    (verifyGame keccak256 hmacSHA256 g).verification.deathTiles =
      generateDeathTiles hmacSHA256 g.seed g.rowConfig ∧
    (g.seed ≠ "" →
      ((verifyGame keccak256 hmacSHA256 g).verification.deathTiles).length =
        g.rowConfig.length) := by
  refine ⟨hfail, rfl, fun hs => ?_⟩
  show (generateDeathTiles hmacSHA256 g.seed g.rowConfig).length = g.rowConfig.length
  unfold generateDeathTiles
  rw [if_neg hs]
  exact generateDeathTilesGo_length hmacSHA256 g.seed g.rowConfig 0

/-- **C8** witness: a concrete request whose commitment check fails still
gets the full reconstruction in its result record. -/
theorem claim8_witness :
    (verifyGame keccakTest hmacTest
        { seedHash := "00", seed := "ab", rowConfig := [2] }).verification.seedValid
      = false ∧
    (verifyGame keccakTest hmacTest
        { seedHash := "00", seed := "ab", rowConfig := [2] }).verification.deathTiles =
      generateDeathTiles hmacTest "ab" [2] ∧
    (("ab" : String) ≠ "" →
      ((verifyGame keccakTest hmacTest
          { seedHash := "00", seed := "ab", rowConfig := [2] }).verification.deathTiles).length
        = ([2] : List Int).length) :=
  claim8_theorem keccakTest hmacTest
    { seedHash := "00", seed := "ab", rowConfig := [2] } (by decide)

end HashVerifier
